import Mathlib

/-!
Verification development for the TaskDB task tracker (src/app.py).

The file shallowly embeds the two core components of the program:

* the timestamp formatter (`_ordinal`, `iso_to_friendly`, and the fragment of
  `datetime.fromisoformat` the application exercises), and
* the task-table layer (`make_empty_df`, `normalize_df`, `df_to_csv_bytes`,
  the Add Task / Remove Marked / Quick Scheduler handlers, and the fragment
  of `pandas.read_csv` / `DataFrame.to_csv` they compose with).

Machine-side definitions are translated from the python source; definitions
whose names end in `Spec` restate the specification's words and are only used
on the right-hand side of refinement theorems.
-/

set_option maxRecDepth 4096

/-! ## Calendar arithmetic (the fragment of `datetime` used by the app) -/

/-- A parsed `datetime` value: the fields of a `datetime.datetime` that the
application reads (no timezone, no sub-second precision). -/
structure DateTime where
  year : Nat
  month : Nat
  day : Nat
  hour : Nat
  minute : Nat
  second : Nat
deriving DecidableEq, Repr

/-- Gregorian leap-year rule, as used by `datetime`. -/
def isLeap (y : Nat) : Bool :=
  (y % 4 == 0 && y % 100 != 0) || y % 400 == 0

/-- Number of days in a month of the proleptic Gregorian calendar. -/
def daysInMonth (y m : Nat) : Nat :=
  if m = 2 then (if isLeap y then 29 else 28)
  else if m = 4 ∨ m = 6 ∨ m = 9 ∨ m = 11 then 30
  else 31

/-- The field ranges `datetime.datetime` enforces (year 1..9999, valid
calendar day, 24h clock). `datetime.fromisoformat` rejects anything else. -/
def ValidDT (dt : DateTime) : Prop :=
  1 ≤ dt.year ∧ dt.year ≤ 9999 ∧
  1 ≤ dt.month ∧ dt.month ≤ 12 ∧
  1 ≤ dt.day ∧ dt.day ≤ daysInMonth dt.year dt.month ∧
  dt.hour ≤ 23 ∧ dt.minute ≤ 59 ∧ dt.second ≤ 59

instance (dt : DateTime) : Decidable (ValidDT dt) := by
  unfold ValidDT; infer_instance

/-- Sakamoto's day-of-week table. -/
def sakamotoT : List Nat := [0, 3, 2, 5, 0, 3, 5, 1, 4, 6, 2, 4]

/-- Day of the week of a proleptic Gregorian date, `0 = Sunday`; this is the
value `datetime.strftime` renders through `%A`. -/
def dayOfWeek (y m d : Nat) : Nat :=
  let y2 := if m < 3 then y - 1 else y
  (y2 + y2 / 4 - y2 / 100 + y2 / 400 + sakamotoT.getD (m - 1) 0 + d) % 7

/-- English day names indexed by `dayOfWeek` (`strftime %A`, C locale). -/
def dayNames : List String :=
  ["Sunday", "Monday", "Tuesday", "Wednesday", "Thursday", "Friday", "Saturday"]

/-- English month names (`strftime %B`, C locale), index `month - 1`. -/
def monthNames : List String :=
  ["January", "February", "March", "April", "May", "June", "July",
   "August", "September", "October", "November", "December"]

/-- Zero-padded two-digit rendering, as in python's `{:02d}` and `%I`. -/
def pad2 (n : Nat) : String :=
  if n < 10 then "0" ++ toString n else toString n

/-! ## Parsing (`datetime.fromisoformat`, the fragment the app exercises)

The application only ever feeds `fromisoformat` strings of the shapes
`YYYY-MM-DD`, `YYYY-MM-DD*HH:MM` and `YYYY-MM-DD*HH:MM:SS` (any single
separator character, which is what CPython accepts); fractional seconds and
timezone suffixes never occur in this program and are modelled as parse
failures, which the caller treats like any other unparseable input. -/

/-- Numeric value of a decimal digit character (python `int` of a digit). -/
def digitVal (c : Char) : Nat := c.toNat - 48

/-- Parse the `YYYY-MM-DD` prefix into `(year, month, day)`. -/
def parseDatePart : List Char → Option (Nat × Nat × Nat)
  | [a, b, c, d, s1, e, f, s2, g, h] =>
    if s1 == '-' && s2 == '-' && a.isDigit && b.isDigit && c.isDigit && d.isDigit &&
       e.isDigit && f.isDigit && g.isDigit && h.isDigit then
      some (1000 * digitVal a + 100 * digitVal b + 10 * digitVal c + digitVal d,
            10 * digitVal e + digitVal f,
            10 * digitVal g + digitVal h)
    else none
  | _ => none

/-- Parse `HH:MM` or `HH:MM:SS` into `(hour, minute, second)`. -/
def parseTimePart : List Char → Option (Nat × Nat × Nat)
  | [h1, h2, c1, m1, m2] =>
    if c1 == ':' && h1.isDigit && h2.isDigit && m1.isDigit && m2.isDigit then
      some (10 * digitVal h1 + digitVal h2, 10 * digitVal m1 + digitVal m2, 0)
    else none
  | [h1, h2, c1, m1, m2, c2, s1, s2] =>
    if c1 == ':' && c2 == ':' && h1.isDigit && h2.isDigit && m1.isDigit && m2.isDigit &&
       s1.isDigit && s2.isDigit then
      some (10 * digitVal h1 + digitVal h2, 10 * digitVal m1 + digitVal m2,
            10 * digitVal s1 + digitVal s2)
    else none
  | _ => none

/-- Range checking performed by the `datetime` constructor: out-of-range
fields raise `ValueError`, modelled as `none`. -/
def mkDateTime (y mo d h mi s : Nat) : Option DateTime :=
  let dt : DateTime := ⟨y, mo, d, h, mi, s⟩
  if ValidDT dt then some dt else none

/-- `datetime.fromisoformat` (the fragment described above); `none` models a
raised `ValueError`. -/
def fromIso (s : String) : Option DateTime :=
  let cs := s.data
  match parseDatePart (cs.take 10) with
  | none => none
  | some (y, mo, d) =>
    match cs.drop 10 with
    | [] => mkDateTime y mo d 0 0 0
    | _sep :: rest =>
      match parseTimePart rest with
      | none => none
      | some (h, mi, se) => mkDateTime y mo d h mi se

/-! ## The display formatter (`_ordinal`, `iso_to_friendly`) -/

/-- The suffix table `['th','st','nd','rd','th','th','th','th','th','th']`
indexed by `n % 10` in `_ordinal`. -/
def ordSuffixes : List String :=
  ["th", "st", "nd", "rd", "th", "th", "th", "th", "th", "th"]

/-- `_ordinal` from src/app.py. -/
def _ordinal (n : Nat) : String :=
  if 11 ≤ n % 100 ∧ n % 100 ≤ 13 then toString n ++ "th"
  else toString n ++ ordSuffixes.getD (n % 10) "th"

/-- `s.lstrip('0')`: drop every leading `'0'`. -/
def lstripZeros (s : String) : String :=
  String.mk (s.data.dropWhile (fun c => c = '0'))

/-- The friendly rendering of a successfully parsed timestamp: the body of
the `try` block of `iso_to_friendly`.  `%Y` is modelled as the unpadded
decimal year (glibc `strftime` does not zero-pad `%Y`), `%I` as the
zero-padded 12-hour hour, `%p` lowercased as `am`/`pm`. -/
def friendly (dt : DateTime) : String :=
  let day := _ordinal dt.day
  let month := monthNames.getD (dt.month - 1) ""
  let year := toString dt.year
  let weekday := dayNames.getD (dayOfWeek dt.year dt.month dt.day) ""
  let i12 := if dt.hour % 12 = 0 then 12 else dt.hour % 12
  let h := let t := lstripZeros (pad2 i12); if t = "" then "0" else t
  let m := dt.minute
  let ampm := if dt.hour < 12 then "am" else "pm"
  let time_str :=
    if ampm = "pm" ∧ m = 0 then h ++ " pm"
    else if m > 0 then h ++ ":" ++ pad2 m ++ " " ++ ampm
    else h ++ " " ++ ampm
  day ++ " " ++ month ++ " " ++ year ++ ", " ++ weekday ++ ", " ++ time_str

/-- `iso_to_friendly` from src/app.py.  `none` models the python argument
`None`; the `try/except` around parsing and formatting is modelled by
`fromIso` returning an `Option` (the formatting itself is total). -/
def iso_to_friendly (iso_str : Option String) : String :=
  match iso_str with
  | none => "—"
  | some s =>
    if s = "" then "—"
    else
      match fromIso s with
      | some dt => friendly dt
      | none => s

/-! Specification-side restatements (used only as right-hand sides of
refinement theorems for the formatter claims). -/

/-- Restates the spec's English ordinal rule: last two digits 11..13 take
`th`; otherwise last digit 1 takes `st`, 2 `nd`, 3 `rd`, all others `th`. -/
def ordinalSpec (n : Nat) : String :=
  toString n ++
    (if 11 ≤ n % 100 ∧ n % 100 ≤ 13 then "th"
     else if n % 10 = 1 then "st"
     else if n % 10 = 2 then "nd"
     else if n % 10 = 3 then "rd"
     else "th")

/-- The 12-hour clock hour: a bare `12` at noon and midnight. -/
def hour12 (h : Nat) : Nat := if h % 12 = 0 then 12 else h % 12

/-- Restates the spec's output shape for `format_display` on a parseable
timestamp: ordinal day, full month name, full year, full weekday name, then
the unpadded 12-hour hour with the minute elided when it is zero. -/
def friendlySpec (dt : DateTime) : String :=
  let ap := if dt.hour < 12 then "am" else "pm"
  ordinalSpec dt.day ++ " " ++ monthNames.getD (dt.month - 1) "" ++ " " ++
    toString dt.year ++ ", " ++
    dayNames.getD (dayOfWeek dt.year dt.month dt.day) "" ++ ", " ++
    (if dt.minute = 0 then toString (hour12 dt.hour) ++ " " ++ ap
     else toString (hour12 dt.hour) ++ ":" ++ pad2 dt.minute ++ " " ++ ap)

/-! ## Formatter lemmas -/

theorem ordinal_eq_spec (n : Nat) : _ordinal n = ordinalSpec n := by
  unfold _ordinal ordinalSpec
  by_cases h : 11 ≤ n % 100 ∧ n % 100 ≤ 13
  · rw [if_pos h, if_pos h]
  · rw [if_neg h, if_neg h]
    congr 1
    have h10 : n % 10 < 10 := Nat.mod_lt _ (by omega)
    set k := n % 10 with hk
    interval_cases k <;> rfl

theorem hourString_eq (h : Nat) (hh : h ≤ 23) :
    (if lstripZeros (pad2 (if h % 12 = 0 then 12 else h % 12)) = "" then "0"
     else lstripZeros (pad2 (if h % 12 = 0 then 12 else h % 12))) = toString (hour12 h) := by
  interval_cases h <;> rfl

theorem mkDateTime_valid {y mo d h mi s : Nat} {dt : DateTime}
    (he : mkDateTime y mo d h mi s = some dt) : ValidDT dt := by
  by_cases hv : ValidDT (⟨y, mo, d, h, mi, s⟩ : DateTime)
  · have hrw : mkDateTime y mo d h mi s = some ⟨y, mo, d, h, mi, s⟩ := by
      simp [mkDateTime, hv]
    rw [hrw] at he; cases he; exact hv
  · have hrw : mkDateTime y mo d h mi s = none := by simp [mkDateTime, hv]
    rw [hrw] at he; cases he

theorem fromIso_valid {s : String} {dt : DateTime} (h : fromIso s = some dt) : ValidDT dt := by
  simp only [fromIso] at h
  split at h
  · cases h
  · split at h
    · exact mkDateTime_valid h
    · split at h
      · cases h
      · exact mkDateTime_valid h

theorem friendly_eq_spec (dt : DateTime) (hv : ValidDT dt) : friendly dt = friendlySpec dt := by
  obtain ⟨y, mo, d, h, mi, s⟩ := dt
  obtain ⟨-, -, -, -, -, -, hh, -, -⟩ := hv
  simp only [friendly, friendlySpec]
  rw [ordinal_eq_spec, hourString_eq h hh]
  congr 1
  by_cases hp : h < 12
  · rw [if_pos hp]
    rw [if_neg (by rintro ⟨hc, -⟩; exact absurd hc (by decide))]
    by_cases hm : mi = 0
    · subst hm
      rw [if_neg (by omega), if_pos rfl]
    · rw [if_pos (Nat.pos_of_ne_zero hm), if_neg hm]
  · rw [if_neg hp]
    by_cases hm : mi = 0
    · subst hm
      rw [if_pos (⟨rfl, rfl⟩ : "pm" = "pm" ∧ 0 = 0), if_pos rfl, String.append_assoc]
      rfl
    · rw [if_neg (by rintro ⟨-, hc⟩; exact hm hc), if_pos (Nat.pos_of_ne_zero hm), if_neg hm]

def digitChar (v : Nat) : Char := Char.ofNat (48 + v)

def digits2 (n : Nat) : List Char := [digitChar (n / 10 % 10), digitChar (n % 10)]

def digits4 (n : Nat) : List Char :=
  [digitChar (n / 1000 % 10), digitChar (n / 100 % 10), digitChar (n / 10 % 10), digitChar (n % 10)]

def dateOnlyStr (y mo d : Nat) : String :=
  String.mk (digits4 y ++ '-' :: digits2 mo ++ '-' :: digits2 d)

theorem digitChar_isDigit {v : Nat} (hv : v < 10) : (digitChar v).isDigit = true := by
  interval_cases v <;> rfl

theorem digitVal_digitChar {v : Nat} (hv : v < 10) : digitVal (digitChar v) = v := by
  interval_cases v <;> rfl

theorem daysInMonth_le_31 (y m : Nat) : daysInMonth y m ≤ 31 := by
  unfold daysInMonth
  split
  · split <;> omega
  · split <;> omega



theorem fromIso_dateOnly (y mo d : Nat)
    (h1 : 1 ≤ y) (h2 : y ≤ 9999) (h3 : 1 ≤ mo) (h4 : mo ≤ 12)
    (h5 : 1 ≤ d) (h6 : d ≤ daysInMonth y mo) :
    fromIso (dateOnlyStr y mo d) = some ⟨y, mo, d, 0, 0, 0⟩ := by
  have hd31 : d ≤ 31 := le_trans h6 (daysInMonth_le_31 y mo)
  have b1 : y / 1000 % 10 < 10 := Nat.mod_lt _ (by omega)
  have b2 : y / 100 % 10 < 10 := Nat.mod_lt _ (by omega)
  have b3 : y / 10 % 10 < 10 := Nat.mod_lt _ (by omega)
  have b4 : y % 10 < 10 := Nat.mod_lt _ (by omega)
  have b5 : mo / 10 % 10 < 10 := Nat.mod_lt _ (by omega)
  have b6 : mo % 10 < 10 := Nat.mod_lt _ (by omega)
  have b7 : d / 10 % 10 < 10 := Nat.mod_lt _ (by omega)
  have b8 : d % 10 < 10 := Nat.mod_lt _ (by omega)
  have hvalid : ValidDT ⟨y, mo, d, 0, 0, 0⟩ :=
    ⟨h1, h2, h3, h4, h5, h6, (by omega : (0:Nat) ≤ 23), (by omega : (0:Nat) ≤ 59), (by omega : (0:Nat) ≤ 59)⟩
  have hpd : parseDatePart (List.take 10 (dateOnlyStr y mo d).data) = some (y, mo, d) := by
    show parseDatePart [digitChar (y / 1000 % 10), digitChar (y / 100 % 10),
        digitChar (y / 10 % 10), digitChar (y % 10), '-', digitChar (mo / 10 % 10),
        digitChar (mo % 10), '-', digitChar (d / 10 % 10), digitChar (d % 10)] = some (y, mo, d)
    simp only [parseDatePart]
    rw [if_pos (by
      rw [digitChar_isDigit b1, digitChar_isDigit b2, digitChar_isDigit b3, digitChar_isDigit b4,
          digitChar_isDigit b5, digitChar_isDigit b6, digitChar_isDigit b7, digitChar_isDigit b8]
      rfl)]
    rw [digitVal_digitChar b1, digitVal_digitChar b2, digitVal_digitChar b3, digitVal_digitChar b4,
        digitVal_digitChar b5, digitVal_digitChar b6, digitVal_digitChar b7, digitVal_digitChar b8]
    have e1 : 1000 * (y / 1000 % 10) + 100 * (y / 100 % 10) + 10 * (y / 10 % 10) + y % 10 = y := by
      omega
    have e2 : 10 * (mo / 10 % 10) + mo % 10 = mo := by omega
    have e3 : 10 * (d / 10 % 10) + d % 10 = d := by omega
    rw [e1, e2, e3]
  have hdrop : List.drop 10 (dateOnlyStr y mo d).data = [] := rfl
  simp only [fromIso, hpd, hdrop]
  simp [mkDateTime, hvalid]

/-- Claim C10: every well-formed `YYYY-MM-DD` string denoting a valid calendar
date parses successfully, and the display formatter returns the full friendly
form ending in the midnight time `12 am` instead of passing the input
through unchanged. -/
theorem C10_date_only_midnight (y mo d : Nat)
    (h1 : 1 ≤ y) (h2 : y ≤ 9999) (h3 : 1 ≤ mo) (h4 : mo ≤ 12)
    (h5 : 1 ≤ d) (h6 : d ≤ daysInMonth y mo) :
    fromIso (dateOnlyStr y mo d) = some ⟨y, mo, d, 0, 0, 0⟩ ∧
    iso_to_friendly (some (dateOnlyStr y mo d)) = friendlySpec ⟨y, mo, d, 0, 0, 0⟩ ∧
    ∃ p : String, friendlySpec ⟨y, mo, d, 0, 0, 0⟩ = p ++ "12 am" := by
  have hp := fromIso_dateOnly y mo d h1 h2 h3 h4 h5 h6
  refine ⟨hp, ?_, ?_⟩
  · have hs : dateOnlyStr y mo d ≠ "" := by
      intro he
      have hd : (dateOnlyStr y mo d).data = [] := by rw [he]
      simp [dateOnlyStr, digits4, digits2] at hd
    simp only [iso_to_friendly, if_neg hs, hp]
    exact friendly_eq_spec _ (fromIso_valid hp)
  · refine ⟨ordinalSpec d ++ " " ++ monthNames.getD (mo - 1) "" ++ " " ++ toString y ++ ", " ++
      dayNames.getD (dayOfWeek y mo d) "" ++ ", ", ?_⟩
    simp only [friendlySpec]
    rw [if_pos trivial]
    congr 1


theorem C10_date_only_midnight_witness :
    fromIso (dateOnlyStr 2025 10 17) = some ⟨2025, 10, 17, 0, 0, 0⟩ ∧
    iso_to_friendly (some (dateOnlyStr 2025 10 17)) = friendlySpec ⟨2025, 10, 17, 0, 0, 0⟩ ∧
    ∃ p : String, friendlySpec ⟨2025, 10, 17, 0, 0, 0⟩ = p ++ "12 am" :=
  C10_date_only_midnight 2025 10 17 (by decide) (by decide) (by decide) (by decide)
    (by decide) (by decide)

/-- Claim C6: `iso_to_friendly` returns the fixed placeholder for empty or
absent input, returns any unparseable non-empty input string unchanged, and,
being a total function, never raises for any input. -/
theorem C6_format_display_errors :
    iso_to_friendly none = "—" ∧ iso_to_friendly (some "") = "—" ∧
    ∀ s : String, fromIso s = none → s ≠ "" → iso_to_friendly (some s) = s := by
  refine ⟨rfl, rfl, ?_⟩
  intro s h hs
  simp only [iso_to_friendly, if_neg hs, h]

theorem C6_format_display_errors_witness :
    iso_to_friendly (some "not a timestamp") = "not a timestamp" :=
  C6_format_display_errors.2.2 "not a timestamp" (by decide) (by decide)

/-- Claim C7: on every parseable timestamp the display output has exactly the
shape the specification describes (ordinal day with English suffix rules, full
month and weekday name, unpadded 12-hour hour, minute elided exactly when
zero), including the two concrete examples of the specification. -/
theorem C7_format_display_shape :
    (∀ (s : String) (dt : DateTime), fromIso s = some dt →
        iso_to_friendly (some s) = friendlySpec dt) ∧
    iso_to_friendly (some "2025-10-17T17:00:00") = "17th October 2025, Friday, 5 pm" ∧
    iso_to_friendly (some "2025-10-17T17:07:00") = "17th October 2025, Friday, 5:07 pm" := by
  refine ⟨?_, by decide, by decide⟩
  intro s dt h
  have hs : s ≠ "" := by
    intro he; subst he
    simp [fromIso, parseDatePart] at h
  simp only [iso_to_friendly, if_neg hs, h]
  exact friendly_eq_spec dt (fromIso_valid h)

theorem C7_format_display_shape_witness :
    iso_to_friendly (some "2026-02-11T09:05:00") = friendlySpec ⟨2026, 2, 11, 9, 5, 0⟩ :=
  C7_format_display_shape.1 "2026-02-11T09:05:00" ⟨2026, 2, 11, 9, 5, 0⟩ (by decide)

/-! ## The task table: cells, rows, data frames

A loosely-typed pandas cell is modelled by `Cell`; a canonical (normalized)
row by `Row`; the row as shown in the editor, together with its transient
`_delete` checkbox, by `SRow`.  A raw `DataFrame` as produced by
`pandas.read_csv` (or handed to `normalize_df`) is a header of column names
plus rectangular rows of cells. -/

/-- A loosely-typed cell value: text, the missing-value marker, or a
non-text scalar (integers and booleans stand in for the non-text values a
hand-edited file can produce). -/
inductive Cell where
  | str (s : String)
  | na
  | int (n : Int)
  | bool (b : Bool)
deriving DecidableEq, Repr

/-- `astype("string")` applied to one cell: `str(value)` for a present value,
with the missing marker kept missing (pandas string dtype keeps `NA`). -/
def cellToString : Cell → Option String
  | .str s => some s
  | .na => none
  | .int n => some (toString n)
  | .bool b => some (if b then "True" else "False")

/-- `STATUS_OPTIONS` from src/app.py. -/
def STATUS_OPTIONS : List String := ["Planned", "In Progress", "Done"]

/-- The five canonical column names, in order (`make_empty_df`). -/
def canonicalCols : List String :=
  ["Entry", "Title / Description", "Task", "Schedule", "Status"]

/-- One normalized task row: the four text-bearing columns are string-dtype
(`none` is the pandas `NA` marker), `status` is the categorical value. -/
structure Row where
  entry : Option String
  title : Option String
  task : Option String
  schedule : Option String
  status : String
deriving DecidableEq, Repr

/-- A row as held by the editor: the canonical row plus the transient
`_delete` checkbox column. -/
structure SRow where
  entry : Option String
  title : Option String
  task : Option String
  schedule : Option String
  status : String
  mark : Bool
deriving DecidableEq, Repr

/-- Dropping the `_delete` column from an editor row. -/
def SRow.toRow (r : SRow) : Row :=
  ⟨r.entry, r.title, r.task, r.schedule, r.status⟩

/-- A raw data frame: named columns over rectangular rows of loose cells. -/
structure RawDF where
  header : List String
  rows : List (List Cell)
deriving DecidableEq, Repr

/-- Rectangularity: every row has exactly one cell per header column. -/
def Rect (df : RawDF) : Prop :=
  ∀ r ∈ df.rows, r.length = df.header.length

instance (df : RawDF) : Decidable (Rect df) := by
  unfold Rect; infer_instance

/-- Index of the first column with the given name (pandas label lookup). -/
def colIdx : List String → String → Option Nat
  | [], _ => none
  | h :: t, c => if h = c then some 0 else (colIdx t c).map (· + 1)

/-- The cell of column `col` in row `i` (missing positions read as `NA`). -/
def RawDF.cell (df : RawDF) (col : String) (i : Nat) : Cell :=
  match colIdx df.header col with
  | some j => (df.rows.getD i []).getD j Cell.na
  | none => Cell.na

/-- One iteration of the column-filling loop of `normalize_df`: a present
column is kept; a missing text column is created filled with the scalar `""`;
a missing `Status` column is assigned `pd.Categorical([], ...)`, which pandas
only accepts on a zero-row frame (on a nonempty frame the assignment raises
`ValueError`, modelled as `Except.error`). -/
def ensureStep (d : RawDF) (col : String) : Except String RawDF :=
  if d.header.contains col then .ok d
  else if col = "Status" then
    (if d.rows.length = 0 then .ok ⟨d.header ++ [col], d.rows⟩
     else .error "Length of values (0) does not match length of index")
  else .ok ⟨d.header ++ [col], d.rows.map (fun r => r ++ [Cell.str ""])⟩

/-- The `for col in base.columns` loop of `normalize_df`. -/
def ensureCols (d : RawDF) : Except String RawDF :=
  canonicalCols.foldlM ensureStep d

/-- `df["Status"].isin(STATUS_OPTIONS)` for one cell: only a string cell can
compare equal to one of the three option strings. -/
def statusIsin : Cell → Bool
  | .str s => STATUS_OPTIONS.contains s
  | _ => false

/-- The `Status` coercion of `normalize_df`: keep the stringified value where
`isin` holds, else fill with the scalar `"Planned"` (the final `Categorical`
wrapper is the identity here because every kept value is an option). -/
def statusCoerce (c : Cell) : String :=
  if statusIsin c then (cellToString c).getD "Planned" else "Planned"

/-- The per-row effect of the selection `df[base.columns]` followed by the
column-wise dtype coercions of `normalize_df` (all five columns are present
when this runs, extra columns are dropped by the selection). -/
def coerceRow (d : RawDF) (i : Nat) : Row :=
  ⟨cellToString (d.cell "Entry" i),
   cellToString (d.cell "Title / Description" i),
   cellToString (d.cell "Task" i),
   cellToString (d.cell "Schedule" i),
   statusCoerce (d.cell "Status" i)⟩

/-- `normalize_df` from src/app.py; `Except.error` models a raised
pandas exception. -/
def normalize_df (df : RawDF) : Except String (List Row) :=
  (ensureCols df).map (fun d => (List.range d.rows.length).map (coerceRow d))

/-! ## Serialization (`DataFrame.to_csv`, `df_to_csv_bytes`) -/

/-- Characters that force a CSV field to be quoted (`csv.QUOTE_MINIMAL`). -/
def isCsvSpecial (c : Char) : Bool :=
  c == ',' || c == '"' || c == '\n' || c == '\r'

/-- Double every double-quote character (CSV quoting). -/
def dupQuotes : List Char → List Char
  | [] => []
  | c :: cs => if c == '"' then '"' :: '"' :: dupQuotes cs else c :: dupQuotes cs

/-- Render one field, quoting it exactly when it contains a special char. -/
def escField (f : List Char) : List Char :=
  if f.any isCsvSpecial then '"' :: (dupQuotes f ++ ['"']) else f

/-- Render one record: fields separated by commas. -/
def recChars : List (List Char) → List Char
  | [] => []
  | [f] => escField f
  | f :: fs => escField f ++ ',' :: recChars fs

/-- Render records, each terminated by a newline (the `to_csv` default). -/
def joinRecs (recs : List (List (List Char))) : List Char :=
  (recs.map (fun rec => recChars rec ++ ['\n'])).flatten

/-- One field value as written by `to_csv`: missing values as the empty
field (`na_rep` default), present values as their text. -/
def fieldChars (o : Option String) : List Char := (o.getD "").data

/-- `DataFrame.to_csv(index=False)`: the header record followed by one
record per row. -/
def to_csv (header : List String) (rows : List (List (Option String))) : String :=
  String.mk (joinRecs ((header.map String.data) :: rows.map (fun row => row.map fieldChars)))

/-- The five serialized fields of a canonical row, in canonical order. -/
def Row.fields (r : Row) : List (Option String) :=
  [r.entry, r.title, r.task, r.schedule, some r.status]

/-- `df_to_csv_bytes` from src/app.py: select the five canonical columns and
emit CSV (modelled as the decoded UTF-8 text). -/
def df_to_csv_bytes (t : List Row) : String :=
  to_csv canonicalCols (t.map Row.fields)

/-- The Commit and Download handler: drop the `_delete` column (if present)
and serialize. -/
def commitBytes (s : List SRow) : String :=
  df_to_csv_bytes (s.map SRow.toRow)

/-- The data records of the serialized form, one per task in table order
(statement-side description used by claim C5). -/
def recordsStr (t : List Row) : String :=
  String.mk (joinRecs (t.map (fun r => r.fields.map fieldChars)))

/-! ## Parsing (`pandas.read_csv`, the fragment the app exercises) -/

/-- CSV tokenizer state machine: `q` is the in-quotes flag, `f` the current
field, `r` the current record, `acc` the finished records.  A quote toggles
quoting, a doubled quote inside quotes is a literal quote, commas and
newlines outside quotes delimit fields and records. -/
def tokAux (q : Bool) (f : List Char) (r : List (List Char))
    (acc : List (List (List Char))) (l : List Char) : List (List (List Char)) :=
  match q, l with
  | false, [] => if f.isEmpty && r.isEmpty then acc else acc ++ [r ++ [f]]
  | true, [] => acc ++ [r ++ [f]]
  | false, c :: cs =>
    if c = ',' then tokAux false [] (r ++ [f]) acc cs
    else if c = '\n' then tokAux false [] [] (acc ++ [r ++ [f]]) cs
    else if c = '"' then tokAux true f r acc cs
    else tokAux false (f ++ [c]) r acc cs
  | true, c :: cs =>
    if c = '"' then
      match cs with
      | [] => tokAux false f r acc []
      | c2 :: cs2 =>
        if c2 = '"' then tokAux true (f ++ ['"']) r acc cs2
        else tokAux false f r acc (c2 :: cs2)
    else tokAux true (f ++ [c]) r acc cs

/-- Tokenize a CSV document into records of raw field texts. -/
def tokenize (s : String) : List (List (List Char)) :=
  tokAux false [] [] [] s.data

/-- The default `na_values` token list of `pandas.read_csv`: these field
texts (the empty field included) are read as the missing marker. -/
def naTokens : List String :=
  ["", "#N/A", "#N/A N/A", "#NA", "-1.#IND", "-1.#QNAN", "-NaN", "-nan",
   "1.#IND", "1.#QNAN", "<NA>", "N/A", "NA", "NULL", "NaN", "None",
   "n/a", "nan", "null"]

/-- One parsed field as a loose cell.  `read_csv` additionally performs
column-wise numeric and boolean dtype inference (a column whose every field
looks numeric is reparsed as numbers); that inference is not modelled
cell-wise, and the round-trip theorem's side conditions exclude the field
texts it would reinterpret. -/
def cellOfField (s : String) : Cell :=
  if naTokens.contains s then Cell.na else Cell.str s

/-- Pad (with `NA`) or truncate a parsed row to the header width. -/
def padTo (n : Nat) (l : List Cell) : List Cell :=
  (l ++ List.replicate (n - l.length) Cell.na).take n

/-- `pandas.read_csv` on decoded text: tokenize, skip blank lines, read the
first record as the header and the rest as rows; `none` models the
`EmptyDataError` raised on input with no records at all. -/
def read_csv (s : String) : Option RawDF :=
  match (tokenize s).filter (fun rec => rec != [[]]) with
  | [] => none
  | hdr :: data =>
    some ⟨hdr.map String.mk,
          data.map (fun rec => padTo hdr.length (rec.map (fun f => cellOfField (String.mk f))))⟩

/-- The load path of the upload handler: `pd.read_csv` then `normalize_df`
(the enclosing `try/except` reports either failure to the user and leaves
the previous table untouched). -/
def loadCsv (s : String) : Except String (List Row) :=
  match read_csv s with
  | none => .error "No columns to parse from file"
  | some df => normalize_df df

/-! ## Table operations -/

/-- `make_empty_df` from src/app.py: the zero-row five-column frame. -/
def make_empty_df : List Row := []

/-- The row dict built by the Add Task handler. -/
def newRow (now : String) : Row := ⟨some now, some "", some "", some "", "Planned"⟩

/-- The Add Task handler: append a fresh row stamped with the current
time (`pd.concat(..., ignore_index=True)`). -/
def add_row (t : List Row) (now : String) : List Row := t ++ [newRow now]

/-- The Quick Scheduler handler: `df.loc[rzero, "Schedule"] = iso_val` for a
row index the widget keeps within range. -/
def set_schedule (t : List Row) (i : Nat) (iso : String) : List Row :=
  match t.get? i with
  | some r => t.set i { r with schedule := some iso }
  | none => t

/-- The Remove Marked handler: keep the rows whose `_delete` flag is not
`True`, then drop the `_delete` column. -/
def removeMarked (s : List SRow) : List Row :=
  (s.filter (fun r => r.mark != true)).map SRow.toRow

/-- The logical field names of one task (spec section 3). -/
inductive TaskField where
  | entry_time
  | title
  | detail
  | schedule_time
  | status
deriving DecidableEq, Repr

/-- The typed errors of the spec's field-mutation contract (spec section 7). -/
inductive UpdateError where
  | OutOfRangeError
  | ImmutableFieldError
  | InvalidStatusError
deriving DecidableEq, Repr

/-- Modelled from the spec: `update_field` and its typed errors exist only as
the editor configuration in src/app.py (the `Entry` column is `disabled`,
i.e. read-only, and the `Status` column is a select box restricted to
`STATUS_OPTIONS`); the in-place single-field update itself is performed by
the editor widget.  Following spec section 4.1: an invalid index fails with
`OutOfRangeError`, `entry_time` fails with `ImmutableFieldError`, a status
value outside the enumeration fails with `InvalidStatusError`, and the
enumeration is the program's `STATUS_OPTIONS`. -/
def update_field (t : List Row) (i : Nat) (f : TaskField) (v : String) :
    Except UpdateError (List Row) :=
  match t.get? i with
  | none => .error .OutOfRangeError
  | some r =>
    match f with
    | .entry_time => .error .ImmutableFieldError
    | .title => .ok (t.set i { r with title := some v })
    | .detail => .ok (t.set i { r with task := some v })
    | .schedule_time => .ok (t.set i { r with schedule := some v })
    | .status =>
      if STATUS_OPTIONS.contains v then .ok (t.set i { r with status := v })
      else .error .InvalidStatusError

/-- The tables reachable from `create_empty` through the mutators of spec
section 4.1 (add, field update, schedule set, remove-marked). -/
inductive Built : List Row → Prop where
  | empty : Built make_empty_df
  | add (t : List Row) (now : String) : Built t → Built (add_row t now)
  | update (t : List Row) (i : Nat) (f : TaskField) (v : String) (t2 : List Row) :
      Built t → update_field t i f v = .ok t2 → Built t2
  | sched (t : List Row) (i : Nat) (iso : String) :
      Built t → Built (set_schedule t i iso)
  | remove (s : List SRow) : Built (s.map SRow.toRow) → Built (removeMarked s)

/-! ## Safe field texts (round-trip side conditions)

`read_csv` reinterprets some field texts: the `na_values` tokens become the
missing marker, and column-wise dtype inference can turn numeric-looking,
boolean-looking or infinity-looking columns into non-text dtypes whose
stringification differs from the original text.  The reader's numeric
converters additionally skip whitespace around the digits, so a field like
`" 5"` loads as the number 5 and restringifies without the padding; the
`Like` predicates below therefore test the text with its surrounding
whitespace stripped.  A `Safe` field text is one that reloads as itself. -/

/-- The whitespace characters C `isspace` accepts, which the `read_csv`
numeric converters skip around a value. -/
def isWsChar (c : Char) : Bool :=
  c == ' ' || c == '\t' || c == '\n' || c == '\r' || c == '\x0b' || c == '\x0c'

/-- Strip surrounding whitespace, the way the numeric converters do. -/
def stripWs (l : List Char) : List Char :=
  ((l.dropWhile isWsChar).reverse.dropWhile isWsChar).reverse

/-- Texts that, ignoring surrounding whitespace, are made only of
sign/digit/dot/exponent characters (the shapes the `read_csv` numeric
inference may consume); a text that is nothing but whitespace also
counts. -/
def numericLike (s : String) : Bool :=
  (stripWs s.data).all (fun c =>
    c.isDigit || c == '+' || c == '-' || c == '.' || c == 'e' || c == 'E')

/-- Texts `read_csv` can read as infinities (again ignoring surrounding
whitespace). -/
def infLike (s : String) : Bool :=
  let t := ((stripWs s.data).map Char.toLower).dropWhile (fun c => c = '+' || c = '-')
  t = "inf".data || t = "infinity".data

/-- Texts `read_csv` can read as booleans (restringified with fixed
casing); surrounding whitespace is stripped for the comparison to stay
conservative. -/
def boolLike (s : String) : Bool :=
  let t := stripWs s.data
  t = "True".data || t = "False".data || t = "TRUE".data || t = "FALSE".data ||
    t = "true".data || t = "false".data

/-- A field text that `read_csv` hands back unchanged. (`"True"` and
`"False"` would also survive, but only via the bool dtype; they are excluded
here to keep the condition column-independent.) -/
def SafeF (s : String) : Prop :=
  naTokens.contains s = false ∧ numericLike s = false ∧ infLike s = false ∧
    boolLike s = false

instance (s : String) : Decidable (SafeF s) := by
  unfold SafeF; infer_instance

/-- A present (non-`NA`) field holding a safe text. -/
def SafeOpt (o : Option String) : Prop :=
  o ≠ none ∧ SafeF (o.getD "")

instance (o : Option String) : Decidable (SafeOpt o) := by
  unfold SafeOpt; infer_instance

/-- All four text-bearing fields of a row are present and safe. -/
def SafeRow (r : Row) : Prop :=
  SafeOpt r.entry ∧ SafeOpt r.title ∧ SafeOpt r.task ∧ SafeOpt r.schedule

instance (r : Row) : Decidable (SafeRow r) := by
  unfold SafeRow; infer_instance

theorem contains_iff_mem (l : List String) (c : String) : l.contains c = true ↔ c ∈ l := by
  simp [List.contains]

theorem colIdx_lt {h : List String} {c : String} {j : Nat} (he : colIdx h c = some j) :
    j < h.length := by
  induction h generalizing j with
  | nil => cases he
  | cons a t ih =>
    simp only [colIdx] at he
    split at he
    · cases he; simp
    · cases hj : colIdx t c with
      | none => rw [hj] at he; cases he
      | some j0 =>
        rw [hj] at he
        cases he
        have := ih hj
        simp; omega

theorem colIdx_append_left {h : List String} {c : String} {j : Nat} (he : colIdx h c = some j)
    (e : List String) : colIdx (h ++ e) c = some j := by
  induction h generalizing j with
  | nil => cases he
  | cons a t ih =>
    simp only [colIdx] at he ⊢
    split at he
    · cases he
      simp_all [colIdx]
    · rename_i hne
      rw [if_neg hne]
      cases hj : colIdx t c with
      | none => rw [hj] at he; cases he
      | some j0 =>
        rw [hj] at he; cases he
        show Option.map (fun x => x + 1) (colIdx (t ++ e) c) = _
        rw [ih hj]
        rfl

theorem colIdx_eq_none {h : List String} {c : String} (hc : c ∉ h) : colIdx h c = none := by
  induction h with
  | nil => rfl
  | cons a t ih =>
    simp only [colIdx]
    rw [if_neg (by intro he; exact hc (he ▸ List.mem_cons_self a t)), ih (by intro hm; exact hc (List.mem_cons_of_mem a hm))]
    rfl

theorem colIdx_isSome {h : List String} {c : String} (hc : c ∈ h) : ∃ j, colIdx h c = some j := by
  induction h with
  | nil => cases hc
  | cons a t ih =>
    simp only [colIdx]
    by_cases he : a = c
    · exact ⟨0, by rw [if_pos he]⟩
    · rw [if_neg he]
      have h1 : c ∈ t := by
        rcases List.mem_cons.mp hc with h1 | h1
        · exact absurd h1.symm he
        · exact h1
      rcases ih h1 with ⟨j, hj⟩
      exact ⟨j + 1, by rw [hj]; rfl⟩

theorem colIdx_append_new {h : List String} {c : String} (hc : c ∉ h) :
    colIdx (h ++ [c]) c = some h.length := by
  induction h with
  | nil => simp [colIdx]
  | cons a t ih =>
    simp only [List.cons_append, colIdx]
    rw [if_neg (by intro he; exact hc (he ▸ List.mem_cons_self a t))]
    show Option.map (fun x => x + 1) (colIdx (t ++ [c]) c) = _
    rw [ih (by intro hm; exact hc (List.mem_cons_of_mem a hm))]
    rfl

theorem cell_of_lt {d : RawDF} {c : String} {j : Nat} (hj : colIdx d.header c = some j)
    (i : Nat) : d.cell c i = (d.rows.getD i []).getD j Cell.na := by
  simp only [RawDF.cell, hj]

theorem getD_map_lt {α β : Type} (f : α → β) (l : List α) {i : Nat} (hi : i < l.length)
    (d : α) (d2 : β) : (l.map f).getD i d2 = f (l.getD i d) := by
  rw [List.getD_eq_getElem _ d2 (by simpa using hi), List.getElem_map, List.getD_eq_getElem _ d hi]

theorem getD_out {α : Type} (l : List α) {i : Nat} (hi : l.length ≤ i) (d : α) :
    l.getD i d = d := by
  rw [List.getD_eq_getElem?_getD, List.getElem?_eq_none hi]
  rfl

theorem cell_append_text {d : RawDF} {col c : String} (i : Nat) (hR : Rect d)
    (hin : c ∈ d.header) :
    (RawDF.mk (d.header ++ [col]) (d.rows.map (fun r => r ++ [Cell.str ""]))).cell c i
      = d.cell c i := by
  rcases colIdx_isSome hin with ⟨j, hj⟩
  have hjl : j < d.header.length := colIdx_lt hj
  have h1 : (RawDF.mk (d.header ++ [col]) (d.rows.map (fun r => r ++ [Cell.str ""]))).cell c i
      = ((d.rows.map (fun r => r ++ [Cell.str ""])).getD i []).getD j Cell.na := by
    simp only [RawDF.cell, colIdx_append_left hj]
  have h2 : d.cell c i = (d.rows.getD i []).getD j Cell.na := by
    simp only [RawDF.cell, hj]
  rw [h1, h2]
  by_cases hi : i < d.rows.length
  · rw [getD_map_lt _ _ hi []]
    have hrl : (d.rows.getD i []).length = d.header.length := by
      rw [List.getD_eq_getElem _ _ hi]
      exact hR _ (List.getElem_mem hi)
    exact List.getD_append _ _ _ _ (by omega)
  · rw [getD_out _ (by simpa using Nat.le_of_not_lt hi) ([] : List Cell),
        getD_out _ (Nat.le_of_not_lt hi) ([] : List Cell)]

theorem cell_append_text_new {d : RawDF} {col : String} {i : Nat} (hR : Rect d)
    (hnot : col ∉ d.header) (hi : i < d.rows.length) :
    (RawDF.mk (d.header ++ [col]) (d.rows.map (fun r => r ++ [Cell.str ""]))).cell col i
      = Cell.str "" := by
  have h1 : (RawDF.mk (d.header ++ [col]) (d.rows.map (fun r => r ++ [Cell.str ""]))).cell col i
      = ((d.rows.map (fun r => r ++ [Cell.str ""])).getD i []).getD d.header.length Cell.na := by
    simp only [RawDF.cell, colIdx_append_new hnot]
  rw [h1, getD_map_lt _ _ hi []]
  have hrl : (d.rows.getD i []).length = d.header.length := by
    rw [List.getD_eq_getElem _ _ hi]
    exact hR _ (List.getElem_mem hi)
  have hrl2 : (d.rows[i]?.getD []).length = d.header.length := by
    rw [List.getElem?_eq_getElem hi, Option.getD_some]
    exact hR _ (List.getElem_mem hi)
  rw [List.getD_append_right _ _ _ _ (by omega)]
  simp [hrl2]

theorem cell_append_status {d : RawDF} {c : String} (i : Nat) (hin : c ∈ d.header) :
    (RawDF.mk (d.header ++ ["Status"]) d.rows).cell c i = d.cell c i := by
  rcases colIdx_isSome hin with ⟨j, hj⟩
  simp only [RawDF.cell, colIdx_append_left hj, hj]

/-- The invariant carried through the column-filling loop of `normalize_df`:
the frame stays rectangular with the same row count, cells of originally
present columns are untouched, processed columns are present, and any column
not originally present was created by the loop (text columns filled with the
empty string; `Status` only on a zero-row frame). -/
def EnsureInv (df : RawDF) (done : List String) (d : RawDF) : Prop :=
  Rect d ∧ d.rows.length = df.rows.length ∧
  (∀ c, c ∈ df.header → c ∈ d.header) ∧
  (∀ c i, c ∈ df.header → d.cell c i = df.cell c i) ∧
  (∀ c, c ∈ done → c ∈ d.header) ∧
  (∀ c, c ∈ d.header → c ∉ df.header →
     c ∈ done ∧ (c = "Status" → df.rows.length = 0) ∧
     (c ≠ "Status" → ∀ i, i < df.rows.length → d.cell c i = Cell.str ""))

theorem ensureStep_inv {df : RawDF} {done : List String} {d d2 : RawDF} {col : String}
    (hI : EnsureInv df done d) (hs : ensureStep d col = .ok d2) :
    EnsureInv df (done ++ [col]) d2 := by
  obtain ⟨hRect, hLen, hSup, hCell, hDone, hNew⟩ := hI
  unfold ensureStep at hs
  by_cases hc : d.header.contains col
  · rw [if_pos hc] at hs
    cases hs
    refine ⟨hRect, hLen, hSup, hCell, ?_, ?_⟩
    · intro c hcm
      rcases List.mem_append.mp hcm with h | h
      · exact hDone c h
      · simp only [List.mem_singleton] at h
        subst h
        exact (contains_iff_mem _ _).mp hc
    · intro c hch hcn
      obtain ⟨h1, h2, h3⟩ := hNew c hch hcn
      exact ⟨List.mem_append_left _ h1, h2, h3⟩
  · rw [if_neg hc] at hs
    have hcnm : col ∉ d.header := fun hm => hc ((contains_iff_mem _ _).mpr hm)
    by_cases hst : col = "Status"
    · rw [if_pos hst] at hs
      by_cases hz : d.rows.length = 0
      · rw [if_pos hz] at hs
        cases hs
        subst hst
        have hdfz : df.rows.length = 0 := by omega
        refine ⟨?_, hLen, ?_, ?_, ?_, ?_⟩
        · intro r hr
          rw [List.length_eq_zero] at hz
          rw [hz] at hr
          cases hr
        · intro c hcm
          exact List.mem_append_left _ (hSup c hcm)
        · intro c i hcm
          rw [cell_append_status i (hSup c hcm)]
          exact hCell c i hcm
        · intro c hcm
          rcases List.mem_append.mp hcm with h | h
          · exact List.mem_append_left _ (hDone c h)
          · simp only [List.mem_singleton] at h
            subst h
            exact List.mem_append_right _ (by simp)
        · intro c hch hcn
          rcases List.mem_append.mp hch with h | h
          · obtain ⟨h1, h2, h3⟩ := hNew c h hcn
            refine ⟨List.mem_append_left _ h1, h2, ?_⟩
            intro hne i hi
            rw [cell_append_status i h]
            exact h3 hne i hi
          · simp only [List.mem_singleton] at h
            subst h
            refine ⟨List.mem_append_right _ (by simp), fun _ => hdfz, ?_⟩
            intro hne
            exact absurd rfl hne
      · rw [if_neg hz] at hs
        cases hs
    · rw [if_neg hst] at hs
      cases hs
      refine ⟨?_, ?_, ?_, ?_, ?_, ?_⟩
      · intro r hr
        rcases List.mem_map.mp hr with ⟨r0, hr0, rfl⟩
        simp [hRect r0 hr0]
      · simpa using hLen
      · intro c hcm
        exact List.mem_append_left _ (hSup c hcm)
      · intro c i hcm
        rw [cell_append_text i hRect (hSup c hcm)]
        exact hCell c i hcm
      · intro c hcm
        rcases List.mem_append.mp hcm with h | h
        · exact List.mem_append_left _ (hDone c h)
        · simp only [List.mem_singleton] at h
          subst h
          exact List.mem_append_right _ (by simp)
      · intro c hch hcn
        rcases List.mem_append.mp hch with h | h
        · obtain ⟨h1, h2, h3⟩ := hNew c h hcn
          refine ⟨List.mem_append_left _ h1, h2, ?_⟩
          intro hne i hi
          rw [cell_append_text i hRect h]
          exact h3 hne i hi
        · simp only [List.mem_singleton] at h
          subst h
          refine ⟨List.mem_append_right _ (by simp), fun he => absurd he hst, ?_⟩
          intro _ i hi
          exact cell_append_text_new hRect hcnm (by omega)

theorem ensureFold_inv (cols : List String) {df : RawDF} {done : List String} {d d2 : RawDF}
    (hI : EnsureInv df done d) (hf : cols.foldlM ensureStep d = .ok d2) :
    EnsureInv df (done ++ cols) d2 := by
  induction cols generalizing done d with
  | nil =>
    simp only [List.foldlM_nil, pure, Except.pure] at hf
    cases hf
    simpa using hI
  | cons c cs ih =>
    rw [List.foldlM_cons] at hf
    cases h1 : ensureStep d c with
    | error e =>
      rw [h1] at hf
      simp only [bind, Except.bind] at hf
      cases hf
    | ok d1 =>
      rw [h1] at hf
      simp only [bind, Except.bind] at hf
      have hres := ih (ensureStep_inv hI h1) hf
      have hl : (done ++ [c]) ++ cs = done ++ (c :: cs) := by simp
      rw [hl] at hres
      exact hres

theorem ensureCols_inv {df d : RawDF} (hR : Rect df) (h : ensureCols df = .ok d) :
    EnsureInv df canonicalCols d := by
  have h0 : EnsureInv df [] df := by
    refine ⟨hR, rfl, fun c hc => hc, fun c i _ => rfl, ?_, ?_⟩
    · intro c hc
      cases hc
    · intro c hch hcn
      exact absurd hch hcn
  have := ensureFold_inv canonicalCols h0 h
  simpa using this

/-- The per-row, per-column description of a successful `normalize_df` run:
present columns keep their (stringified) cells, missing text columns read as
the empty string, and `Status` is coerced cell-wise. -/
theorem normalize_char {df : RawDF} (hR : Rect df) {out : List Row}
    (h : normalize_df df = .ok out) :
    out.length = df.rows.length ∧
    ∀ i (hi : i < out.length),
      out[i] =
        ⟨cellToString (if df.header.contains "Entry" then df.cell "Entry" i else Cell.str ""),
         cellToString (if df.header.contains "Title / Description" then
            df.cell "Title / Description" i else Cell.str ""),
         cellToString (if df.header.contains "Task" then df.cell "Task" i else Cell.str ""),
         cellToString (if df.header.contains "Schedule" then df.cell "Schedule" i else Cell.str ""),
         statusCoerce (df.cell "Status" i)⟩ := by
  unfold normalize_df at h
  cases he : ensureCols df with
  | error e =>
    rw [he] at h
    cases h
  | ok d =>
    rw [he] at h
    simp only [Except.map] at h
    obtain ⟨hRect, hLen, hSup, hCell, hDone, hNew⟩ := ensureCols_inv hR he
    have hout : out = (List.range d.rows.length).map (coerceRow d) := by
      cases h
      rfl
    subst hout
    have hlen2 : ((List.range d.rows.length).map (coerceRow d)).length = df.rows.length := by
      simp [hLen]
    refine ⟨hlen2, ?_⟩
    intro i hi
    have hidf : i < df.rows.length := hlen2 ▸ hi
    rw [List.getElem_map, List.getElem_range]
    have hfield : ∀ c : String, c ∈ canonicalCols → c ≠ "Status" →
        d.cell c i = (if df.header.contains c then df.cell c i else Cell.str "") := by
      intro c hcc hcs
      by_cases hcm : df.header.contains c
      · rw [if_pos hcm]
        exact hCell c i ((contains_iff_mem _ _).mp hcm)
      · rw [if_neg hcm]
        have hcn : c ∉ df.header := fun hm => hcm ((contains_iff_mem _ _).mpr hm)
        obtain ⟨-, -, h3⟩ := hNew c (hDone c hcc) hcn
        exact h3 hcs i hidf
    have hstat : d.cell "Status" i = df.cell "Status" i := by
      by_cases hcm : "Status" ∈ df.header
      · exact hCell "Status" i hcm
      · obtain ⟨-, h2, -⟩ := hNew "Status" (hDone "Status" (by simp [canonicalCols])) hcm
        have h0 : df.rows.length = 0 := h2 rfl
        omega
    unfold coerceRow
    rw [hstat, hfield "Entry" (by simp [canonicalCols]) (by decide),
        hfield "Title / Description" (by simp [canonicalCols]) (by decide),
        hfield "Task" (by simp [canonicalCols]) (by decide),
        hfield "Schedule" (by simp [canonicalCols]) (by decide)]

/-- Restates the amended coercion rule: a status cell equal (as a string,
case-sensitively) to one of the program's three option strings is kept,
every other cell (other strings, missing, non-text) becomes `Planned`. -/
def statusCoerceSpec (c : Cell) : String :=
  match c with
  | .str s => if s = "Planned" ∨ s = "In Progress" ∨ s = "Done" then s else "Planned"
  | _ => "Planned"

theorem statusCoerce_eq_spec (c : Cell) : statusCoerce c = statusCoerceSpec c := by
  cases c with
  | str s =>
    have hco : (STATUS_OPTIONS.contains s = true) ↔
        (s = "Planned" ∨ s = "In Progress" ∨ s = "Done") := by
      rw [contains_iff_mem]
      simp [STATUS_OPTIONS]
    simp only [statusCoerce, statusIsin, statusCoerceSpec, cellToString]
    by_cases hs : s = "Planned" ∨ s = "In Progress" ∨ s = "Done"
    · rw [if_pos (hco.mpr hs), if_pos hs]
      rfl
    · rw [if_neg (fun hc => hs (hco.mp hc)), if_neg hs]
  | na => rfl
  | int n => rfl
  | bool b => rfl

/-- Claim C2 (code bug): `normalize_df` is not total.  On any nonempty input
frame missing the `Status` column, the loop assigns the length-0
`pd.Categorical([], categories=STATUS_OPTIONS)` to a frame with rows, and
pandas raises `ValueError: Length of values (0) does not match length of
index`; the same input with zero rows is accepted.  The spec's contract
(missing columns are created and filled, `normalize` never fails) is clearly
the intent of the surrounding loop, which fills every other missing column
with a scalar. -/
theorem C2_normalize_raises_on_missing_status :
    normalize_df ⟨["Entry"], [[Cell.str "2025-01-01T00:00:00"]]⟩ =
      .error "Length of values (0) does not match length of index" ∧
    normalize_df ⟨["Entry"], []⟩ =
      .ok [] := ⟨rfl, rfl⟩

/-- Claim C3 counterexample: the claim's enumeration (`Planned`,
`InProgress`, `Done`) does not match the program's `STATUS_OPTIONS`
(`Planned`, `In Progress`, `Done`).  `normalize_df` coerces the status
`"InProgress"` to `"Planned"` (the claim says it is left unchanged) and
leaves `"In Progress"` unchanged (the claim says it is coerced). -/
theorem C3_status_coercion_counterexample :
    normalize_df ⟨canonicalCols,
        [[Cell.str "e", Cell.str "t", Cell.str "k", Cell.str "s", Cell.str "InProgress"]]⟩ =
      .ok [⟨some "e", some "t", some "k", some "s", "Planned"⟩] ∧
    normalize_df ⟨canonicalCols,
        [[Cell.str "e", Cell.str "t", Cell.str "k", Cell.str "s", Cell.str "In Progress"]]⟩ =
      .ok [⟨some "e", some "t", some "k", some "s", "In Progress"⟩] ∧
    ("Planned" : String) ≠ "InProgress" := ⟨rfl, rfl, by decide⟩

/-- Claim C3 as amended: for every input row, `normalize_df` maps any status
cell that is not exactly (case-sensitively) the string `Planned`,
`In Progress` or `Done` to `Planned`, and leaves each of those three exact
strings unchanged. -/
theorem C3_status_coercion_amended {df : RawDF} (hR : Rect df) {out : List Row}
    (h : normalize_df df = .ok out) (i : Nat) (hi : i < out.length) :
    out[i].status = statusCoerceSpec (df.cell "Status" i) := by
  obtain ⟨-, hrow⟩ := normalize_char hR h
  rw [hrow i hi]
  exact statusCoerce_eq_spec _

/-- Claim C3 as amended: for every input row, `normalize_df` maps any status
cell that is not exactly (case-sensitively) the string `Planned`,
`In Progress` or `Done` to `Planned`, and leaves each of those three exact
strings unchanged. -/
theorem C3_status_coercion_amended_witness :
    ([⟨some "a", none, some "b", some "c", "Done"⟩] : List Row)[0].status =
      statusCoerceSpec ((⟨canonicalCols,
        [[Cell.str "a", Cell.na, Cell.str "b", Cell.str "c", Cell.str "Done"]]⟩ : RawDF).cell "Status" 0) :=
  C3_status_coercion_amended (by decide)
    (rfl : normalize_df ⟨canonicalCols,
      [[Cell.str "a", Cell.na, Cell.str "b", Cell.str "c", Cell.str "Done"]]⟩ =
      Except.ok [⟨some "a", none, some "b", some "c", "Done"⟩]) 0 (by decide)

/-- Claim C4 counterexample: a row whose five cells are all the missing
marker normalizes to a row whose text fields are the string-dtype `NA`
marker (`none`), not the empty string, refuting the claim that every absent
input value is normalized to `""`. -/
theorem C4_empty_string_counterexample :
    normalize_df ⟨canonicalCols, [[Cell.na, Cell.na, Cell.na, Cell.na, Cell.na]]⟩ =
      .ok [⟨none, none, none, none, "Planned"⟩] ∧
    (⟨none, none, none, none, "Planned"⟩ : Row).title ≠ some "" := ⟨rfl, by decide⟩

/-- Claim C4 as amended: every text-bearing field of a normalized table is a
string-dtype value: a column missing from the input is created filled with
the empty string, a present cell is stringified, and a present-but-missing
(`NA`) cell remains the `NA` marker rather than becoming the empty
string. -/
theorem C4_text_fields_amended {df : RawDF} (hR : Rect df) {out : List Row}
    (h : normalize_df df = .ok out) (i : Nat) (hi : i < out.length) :
    (out[i].entry = cellToString (if df.header.contains "Entry" then
        df.cell "Entry" i else Cell.str "") ∧
     out[i].title = cellToString (if df.header.contains "Title / Description" then
        df.cell "Title / Description" i else Cell.str "") ∧
     out[i].task = cellToString (if df.header.contains "Task" then
        df.cell "Task" i else Cell.str "") ∧
     out[i].schedule = cellToString (if df.header.contains "Schedule" then
        df.cell "Schedule" i else Cell.str "")) ∧
    cellToString (Cell.str "") = some "" ∧ cellToString Cell.na = none := by
  obtain ⟨-, hrow⟩ := normalize_char hR h
  rw [hrow i hi]
  exact ⟨⟨rfl, rfl, rfl, rfl⟩, rfl, rfl⟩

/-- Claim C4 as amended: every text-bearing field of a normalized table is a
string-dtype value: a column missing from the input is created filled with
the empty string, a present cell is stringified, and a present-but-missing
(`NA`) cell remains the `NA` marker rather than becoming the empty
string. -/
theorem C4_text_fields_amended_witness :
    (([⟨some "", some "", some "", some "", "Planned"⟩] : List Row)[0].entry =
      cellToString (if (⟨["Status"], [[Cell.int 5]]⟩ : RawDF).header.contains "Entry" then
        (⟨["Status"], [[Cell.int 5]]⟩ : RawDF).cell "Entry" 0 else Cell.str "") ∧
     ([⟨some "", some "", some "", some "", "Planned"⟩] : List Row)[0].title =
      cellToString (if (⟨["Status"], [[Cell.int 5]]⟩ : RawDF).header.contains "Title / Description" then
        (⟨["Status"], [[Cell.int 5]]⟩ : RawDF).cell "Title / Description" 0 else Cell.str "") ∧
     ([⟨some "", some "", some "", some "", "Planned"⟩] : List Row)[0].task =
      cellToString (if (⟨["Status"], [[Cell.int 5]]⟩ : RawDF).header.contains "Task" then
        (⟨["Status"], [[Cell.int 5]]⟩ : RawDF).cell "Task" 0 else Cell.str "") ∧
     ([⟨some "", some "", some "", some "", "Planned"⟩] : List Row)[0].schedule =
      cellToString (if (⟨["Status"], [[Cell.int 5]]⟩ : RawDF).header.contains "Schedule" then
        (⟨["Status"], [[Cell.int 5]]⟩ : RawDF).cell "Schedule" 0 else Cell.str "")) ∧
    cellToString (Cell.str "") = some "" ∧ cellToString Cell.na = none :=
  C4_text_fields_amended (by decide)
    (rfl : normalize_df ⟨["Status"], [[Cell.int 5]]⟩ =
      Except.ok [⟨some "", some "", some "", some "", "Planned"⟩]) 0 (by decide)

theorem joinRecs_cons (r : List (List Char)) (rs : List (List (List Char))) :
    joinRecs (r :: rs) = (recChars r ++ ['\n']) ++ joinRecs rs := by
  simp [joinRecs]

/-- Claim C5: the Commit and Download path serializes exactly the five
canonical columns: the output is the exact header record
`Entry,Title / Description,Task,Schedule,Status` followed by one data record
per task in table order with the fields in that order (`recordsStr`), and it
depends on the editor rows only through `SRow.toRow`, so the transient
`_delete` flag is never part of the serialized output. -/
theorem C5_serialized_form (s : List SRow) :
    commitBytes s = "Entry,Title / Description,Task,Schedule,Status\n" ++
      recordsStr (s.map SRow.toRow) := by
  unfold commitBytes df_to_csv_bytes to_csv recordsStr
  rw [List.map_map]
  rw [joinRecs_cons]
  show String.mk (recChars (canonicalCols.map String.data) ++ ['\n']) ++
      String.mk (joinRecs _) = _
  congr 1

/-- Claim C9: the Remove Marked operation removes exactly the rows whose
transient deletion flag is set, and the result is a sublist of the projected
original table: surviving rows keep their relative order and their five
field values unchanged. -/
theorem C9_remove_marked_frame (s : List SRow) :
    removeMarked s = (s.filter (fun r => r.mark = false)).map SRow.toRow ∧
    (removeMarked s).Sublist (s.map SRow.toRow) := by
  constructor
  · unfold removeMarked
    congr 1
    apply List.filter_congr
    intro r _
    cases hr : r.mark <;> simp [hr]
  · unfold removeMarked
    exact List.Sublist.map _ (List.filter_sublist s)

/-- Claim C8: for every valid row index, updating the `entry_time` field
fails with `ImmutableFieldError` (and, the update being modelled as a pure
function returning `Except`, no change to the table is produced). -/
theorem C8_entry_time_immutable (t : List Row) (i : Nat) (v : String) (hi : i < t.length) :
    update_field t i .entry_time v = .error .ImmutableFieldError := by
  unfold update_field
  rw [List.get?_eq_getElem?, List.getElem?_eq_getElem hi]

/-- Claim C8: for every valid row index, updating the `entry_time` field
fails with `ImmutableFieldError` (and, the update being modelled as a pure
function returning `Except`, no change to the table is produced). -/
theorem C8_entry_time_immutable_witness :
    0 < ([⟨some "2025-01-01T00:00:00", some "", some "", some "", "Planned"⟩] : List Row).length ∧
    update_field [⟨some "2025-01-01T00:00:00", some "", some "", some "", "Planned"⟩] 0
      .entry_time "2030-01-01T00:00:00" = .error .ImmutableFieldError :=
  ⟨by decide, C8_entry_time_immutable _ 0 _ (by decide)⟩

theorem tokAux_plain (s : List Char) (hplain : ∀ c ∈ s, ¬(c = ',' ∨ c = '\n' ∨ c = '"'))
    (f : List Char) (r : List (List Char)) (acc : List (List (List Char))) (rest : List Char) :
    tokAux false f r acc (s ++ rest) = tokAux false (f ++ s) r acc rest := by
  induction s generalizing f with
  | nil => simp
  | cons c cs ih =>
    have hc := hplain c (List.mem_cons_self _ _)
    push_neg at hc
    obtain ⟨h1, h2, h3⟩ := hc
    rw [List.cons_append]
    show tokAux false f r acc (c :: (cs ++ rest)) = _
    rw [show tokAux false f r acc (c :: (cs ++ rest))
        = tokAux false (f ++ [c]) r acc (cs ++ rest) from by
      simp [tokAux, h1, h2, h3]]
    rw [ih (fun c2 h => hplain c2 (List.mem_cons_of_mem _ h))]
    simp

theorem tokAux_quoted (s : List Char) (f : List Char) (r : List (List Char))
    (acc : List (List (List Char))) (rest : List Char)
    (hrest : ∀ c cs2, rest = c :: cs2 → c ≠ '"') :
    tokAux true f r acc (dupQuotes s ++ '"' :: rest) = tokAux false (f ++ s) r acc rest := by
  induction s generalizing f with
  | nil =>
    simp only [dupQuotes, List.nil_append]
    cases rest with
    | nil => simp [tokAux]
    | cons c2 cs2 =>
      have hne := hrest c2 cs2 rfl
      simp [tokAux, hne]
  | cons c cs ih =>
    by_cases hc : c = '"'
    · subst hc
      show tokAux true f r acc (dupQuotes ('"' :: cs) ++ '"' :: rest) = _
      rw [show dupQuotes ('"' :: cs) = '"' :: '"' :: dupQuotes cs from by simp [dupQuotes]]
      rw [List.cons_append, List.cons_append]
      rw [show tokAux true f r acc ('"' :: '"' :: (dupQuotes cs ++ '"' :: rest))
          = tokAux true (f ++ ['"']) r acc (dupQuotes cs ++ '"' :: rest) from by
        rw [tokAux.eq_def]
        simp]
      rw [ih (f ++ ['"'])]
      simp
    · show tokAux true f r acc (dupQuotes (c :: cs) ++ '"' :: rest) = _
      rw [show dupQuotes (c :: cs) = c :: dupQuotes cs from by simp [dupQuotes, hc]]
      rw [List.cons_append]
      rw [show tokAux true f r acc (c :: (dupQuotes cs ++ '"' :: rest))
          = tokAux true (f ++ [c]) r acc (dupQuotes cs ++ '"' :: rest) from by
        rw [tokAux.eq_def]
        simp [hc]]
      rw [ih (f ++ [c])]
      simp

theorem tokAux_delim (s : List Char) (d : Char) (hd : d = ',' ∨ d = '\n')
    (r : List (List Char)) (acc : List (List (List Char))) (rest : List Char) :
    tokAux false s r acc (d :: rest) =
      if d = ',' then tokAux false [] (r ++ [s]) acc rest
      else tokAux false [] [] (acc ++ [r ++ [s]]) rest := by
  rcases hd with rfl | rfl
  · rw [tokAux.eq_def]
    simp
  · rw [tokAux.eq_def]
    simp

theorem tokAux_field (s : List Char) (d : Char) (hd : d = ',' ∨ d = '\n')
    (r : List (List Char)) (acc : List (List (List Char))) (rest : List Char) :
    tokAux false [] r acc (escField s ++ d :: rest) =
      if d = ',' then tokAux false [] (r ++ [s]) acc rest
      else tokAux false [] [] (acc ++ [r ++ [s]]) rest := by
  have hdq : d ≠ '"' := by
    rcases hd with rfl | rfl <;> decide
  unfold escField
  by_cases hq : s.any isCsvSpecial
  · rw [if_pos hq]
    rw [List.cons_append, List.append_assoc]
    rw [show tokAux false [] r acc ('"' :: (dupQuotes s ++ (['"'] ++ d :: rest)))
        = tokAux true [] r acc (dupQuotes s ++ (['"'] ++ d :: rest)) from by
      rw [tokAux.eq_def]
      simp]
    rw [show (['"'] ++ d :: rest : List Char) = '"' :: d :: rest from rfl]
    rw [tokAux_quoted s [] r acc (d :: rest) (fun c cs2 he => by
      cases he
      exact hdq)]
    rw [List.nil_append]
    exact tokAux_delim s d hd r acc rest
  · rw [if_neg hq]
    have hplain : ∀ c ∈ s, ¬(c = ',' ∨ c = '\n' ∨ c = '"') := by
      intro c hcm hor
      have hsp : isCsvSpecial c = true := by
        rcases hor with rfl | rfl | rfl <;> rfl
      exact hq (List.any_eq_true.mpr ⟨c, hcm, hsp⟩)
    rw [tokAux_plain s hplain [] r acc (d :: rest), List.nil_append]
    exact tokAux_delim s d hd r acc rest

theorem tokAux_record (f0 : List Char) (fs : List (List Char))
    (r : List (List Char)) (acc : List (List (List Char))) (rest : List Char) :
    tokAux false [] r acc (recChars (f0 :: fs) ++ '\n' :: rest) =
      tokAux false [] [] (acc ++ [r ++ (f0 :: fs)]) rest := by
  induction fs generalizing f0 r with
  | nil =>
    rw [show recChars [f0] = escField f0 from rfl]
    rw [tokAux_field f0 '\n' (Or.inr rfl) r acc rest]
    simp
  | cons f2 fs2 ih =>
    rw [show recChars (f0 :: f2 :: fs2) = escField f0 ++ ',' :: recChars (f2 :: fs2) from rfl]
    rw [List.append_assoc, List.cons_append]
    rw [tokAux_field f0 ',' (Or.inl rfl) r acc (recChars (f2 :: fs2) ++ '\n' :: rest)]
    rw [if_pos rfl]
    rw [ih f2 (r ++ [f0])]
    simp

theorem tokAux_join (recs : List (List (List Char)))
    (hne : ∀ rec ∈ recs, rec ≠ []) (acc : List (List (List Char))) :
    tokAux false [] [] acc (joinRecs recs) = acc ++ recs := by
  induction recs generalizing acc with
  | nil =>
    rw [show joinRecs [] = [] from rfl, tokAux.eq_def]
    simp
  | cons rec rs ih =>
    cases hrec : rec with
    | nil => exact absurd hrec (hne rec (List.mem_cons_self _ _))
    | cons f0 fs =>
      rw [joinRecs_cons, List.append_assoc]
      rw [show (['\n'] ++ joinRecs rs : List Char) = '\n' :: joinRecs rs from rfl]
      rw [tokAux_record f0 fs [] acc (joinRecs rs)]
      rw [ih (fun rec2 h => hne rec2 (List.mem_cons_of_mem _ h))]
      simp

theorem tokenize_to_csv (header : List String) (rows : List (List (Option String)))
    (hh : header ≠ []) (hr : ∀ row ∈ rows, row ≠ []) :
    tokenize (to_csv header rows) =
      (header.map String.data) :: rows.map (fun row => row.map fieldChars) := by
  unfold tokenize to_csv
  show tokAux false [] [] [] (joinRecs _) = _
  rw [tokAux_join]
  · simp
  · intro rec hm
    rcases List.mem_cons.mp hm with h | h
    · subst h
      simp only [ne_eq, List.map_eq_nil_iff]
      exact hh
    · rcases List.mem_map.mp h with ⟨row, hrow, rfl⟩
      simp only [ne_eq, List.map_eq_nil_iff]
      exact hr row hrow

theorem cellOfField_safe {s : String} (h : SafeF s) : cellOfField s = Cell.str s := by
  unfold cellOfField
  rw [if_neg (by rw [h.1]; decide)]

theorem cellOfField_status {s : String} (h : s ∈ STATUS_OPTIONS) : cellOfField s = Cell.str s := by
  have hd : s = "Planned" ∨ s = "In Progress" ∨ s = "Done" := by
    simpa [STATUS_OPTIONS] using h
  rcases hd with rfl | rfl | rfl <;> rfl

theorem padTo_exact {n : Nat} {l : List Cell} (h : l.length = n) : padTo n l = l := by
  unfold padTo
  rw [h]
  simp
  omega

theorem mk_fieldChars (o : Option String) : String.mk (fieldChars o) = o.getD "" := rfl

theorem some_getD {o : Option String} (h : o ≠ none) : some (o.getD "") = o := by
  cases o with
  | none => exact absurd rfl h
  | some s => rfl

theorem row_cells_reload (r : Row) (hs : SafeRow r) (hst : r.status ∈ STATUS_OPTIONS) :
    padTo 5 ((r.fields.map fieldChars).map (fun f => cellOfField (String.mk f))) =
      [Cell.str (r.entry.getD ""), Cell.str (r.title.getD ""), Cell.str (r.task.getD ""),
       Cell.str (r.schedule.getD ""), Cell.str r.status] := by
  obtain ⟨⟨-, he2⟩, ⟨-, ht2⟩, ⟨-, hk2⟩, ⟨-, hc2⟩⟩ := hs
  simp only [Row.fields, List.map_cons, List.map_nil, mk_fieldChars]
  rw [cellOfField_safe he2, cellOfField_safe ht2, cellOfField_safe hk2, cellOfField_safe hc2]
  rw [show (some r.status).getD "" = r.status from rfl, cellOfField_status hst]
  exact padTo_exact rfl

theorem read_csv_to_csv (t : List Row)
    (hst : ∀ r ∈ t, r.status ∈ STATUS_OPTIONS) (hsafe : ∀ r ∈ t, SafeRow r) :
    read_csv (df_to_csv_bytes t) =
      some ⟨canonicalCols, t.map (fun r =>
        [Cell.str (r.entry.getD ""), Cell.str (r.title.getD ""), Cell.str (r.task.getD ""),
         Cell.str (r.schedule.getD ""), Cell.str r.status])⟩ := by
  unfold read_csv df_to_csv_bytes
  rw [tokenize_to_csv canonicalCols (t.map Row.fields) (by decide)
      (fun row hrow => by
        rcases List.mem_map.mp hrow with ⟨r, -, rfl⟩
        simp [Row.fields])]
  rw [List.map_map]
  rw [List.filter_eq_self.mpr ?hf]
  case hf =>
    intro rec hm
    rcases List.mem_cons.mp hm with h | h
    · subst h
      decide
    · rcases List.mem_map.mp h with ⟨r, -, rfl⟩
      rw [bne_iff_ne]
      intro he
      have hlen := congrArg List.length he
      simp [Row.fields] at hlen
  show some _ = some _
  congr 1
  show RawDF.mk ((canonicalCols.map String.data).map String.mk) _ = _
  rw [show (canonicalCols.map String.data).map String.mk = canonicalCols from rfl]
  congr 1
  rw [List.map_map]
  apply List.map_congr_left
  intro r hr
  show padTo (canonicalCols.map String.data).length ((r.fields.map fieldChars).map
    (fun f => cellOfField (String.mk f))) = _
  rw [show (canonicalCols.map String.data).length = 5 from rfl]
  exact row_cells_reload r (hsafe r hr) (hst r hr)

theorem ensureCols_canonical (rows : List (List Cell)) :
    ensureCols ⟨canonicalCols, rows⟩ = .ok ⟨canonicalCols, rows⟩ := rfl

theorem roundtrip_safe (t : List Row)
    (hst : ∀ r ∈ t, r.status ∈ STATUS_OPTIONS) (hsafe : ∀ r ∈ t, SafeRow r) :
    loadCsv (df_to_csv_bytes t) = .ok t := by
  unfold loadCsv
  rw [read_csv_to_csv t hst hsafe]
  show normalize_df ⟨canonicalCols, _⟩ = Except.ok t
  unfold normalize_df
  rw [ensureCols_canonical]
  simp only [Except.map]
  congr 1
  set rows := t.map (fun r =>
      [Cell.str (r.entry.getD ""), Cell.str (r.title.getD ""), Cell.str (r.task.getD ""),
       Cell.str (r.schedule.getD ""), Cell.str r.status]) with hrows
  apply List.ext_getElem
  · simp [hrows]
  · intro i h1 h2
    rw [List.getElem_map, List.getElem_range]
    have hlen : i < t.length := h2
    obtain ⟨⟨he1, he2⟩, ⟨ht1, ht2⟩, ⟨hk1, hk2⟩, ⟨hc1, hc2⟩⟩ := hsafe t[i] (List.getElem_mem hlen)
    have hsti := hst t[i] (List.getElem_mem hlen)
    have hrowv : rows.getD i [] =
        [Cell.str (t[i].entry.getD ""), Cell.str (t[i].title.getD ""),
         Cell.str (t[i].task.getD ""), Cell.str (t[i].schedule.getD ""),
         Cell.str (t[i].status)] := by
      rw [hrows, getD_map_lt _ t hlen ⟨none, none, none, none, ""⟩ [],
          List.getD_eq_getElem t _ hlen]
    unfold coerceRow
    have e0 : (RawDF.mk canonicalCols rows).cell "Entry" i
        = (rows.getD i []).getD 0 Cell.na := rfl
    have e1 : (RawDF.mk canonicalCols rows).cell "Title / Description" i
        = (rows.getD i []).getD 1 Cell.na := rfl
    have e2 : (RawDF.mk canonicalCols rows).cell "Task" i
        = (rows.getD i []).getD 2 Cell.na := rfl
    have e3 : (RawDF.mk canonicalCols rows).cell "Schedule" i
        = (rows.getD i []).getD 3 Cell.na := rfl
    have e4 : (RawDF.mk canonicalCols rows).cell "Status" i
        = (rows.getD i []).getD 4 Cell.na := rfl
    rw [e0, e1, e2, e3, e4, hrowv]
    simp only [List.getD_cons_zero, List.getD_cons_succ]
    simp only [cellToString]
    rw [show statusCoerce (Cell.str (t[i].status)) = t[i].status from by
      unfold statusCoerce statusIsin
      rw [if_pos ((contains_iff_mem _ _).mpr hsti)]
      rfl]
    rw [some_getD he1, some_getD ht1, some_getD hk1, some_getD hc1]

theorem built_status {t : List Row} (hb : Built t) : ∀ r ∈ t, r.status ∈ STATUS_OPTIONS := by
  induction hb with
  | empty =>
    intro r hr
    cases hr
  | add t now hb ih =>
    intro r hr
    unfold add_row at hr
    rcases List.mem_append.mp hr with h | h
    · exact ih r h
    · simp only [List.mem_singleton] at h
      subst h
      simp [newRow, STATUS_OPTIONS]
  | update t i f v t2 hb heq ih =>
    intro r hr
    unfold update_field at heq
    cases hget : t.get? i with
    | none =>
      rw [hget] at heq
      cases heq
    | some r0 =>
      rw [hget] at heq
      have hr0 : r0 ∈ t := List.get?_mem hget
      cases f with
      | entry_time => cases heq
      | title =>
        cases heq
        rcases List.mem_or_eq_of_mem_set hr with h | h
        · exact ih r h
        · subst h
          exact ih r0 hr0
      | detail =>
        cases heq
        rcases List.mem_or_eq_of_mem_set hr with h | h
        · exact ih r h
        · subst h
          exact ih r0 hr0
      | schedule_time =>
        cases heq
        rcases List.mem_or_eq_of_mem_set hr with h | h
        · exact ih r h
        · subst h
          exact ih r0 hr0
      | status =>
        replace heq : (if STATUS_OPTIONS.contains v = true then
            Except.ok (t.set i { r0 with status := v })
          else Except.error UpdateError.InvalidStatusError) = Except.ok t2 := heq
        by_cases hv : STATUS_OPTIONS.contains v
        · rw [if_pos hv] at heq
          cases heq
          rcases List.mem_or_eq_of_mem_set hr with h | h
          · exact ih r h
          · subst h
            exact (contains_iff_mem _ _).mp hv
        · rw [if_neg hv] at heq
          cases heq
  | sched t i iso hb ih =>
    intro r hr
    unfold set_schedule at hr
    cases hget : t.get? i with
    | none =>
      rw [hget] at hr
      exact ih r hr
    | some r0 =>
      rw [hget] at hr
      have hr0 : r0 ∈ t := List.get?_mem hget
      rcases List.mem_or_eq_of_mem_set hr with h | h
      · exact ih r h
      · subst h
        exact ih r0 hr0
  | remove s hb ih =>
    intro r hr
    unfold removeMarked at hr
    rcases List.mem_map.mp hr with ⟨sr, hsr, rfl⟩
    exact ih (SRow.toRow sr) (List.mem_map_of_mem _ (List.mem_of_mem_filter hsr))

/-- Claim C1 counterexample: the round-trip law fails on fields holding the
empty string.  The one-row table produced by a single `add_row` (whose
title, detail and schedule fields are the empty string) serializes to a CSV
whose empty fields reload as the string-dtype `NA` marker, so
`normalize(parse(serialize(t)))` is not field-for-field equal to `t`. -/
theorem C1_roundtrip_counterexample :
    add_row make_empty_df "2025-01-01T00:00:00" =
      [⟨some "2025-01-01T00:00:00", some "", some "", some "", "Planned"⟩] ∧
    loadCsv (df_to_csv_bytes (add_row make_empty_df "2025-01-01T00:00:00")) =
      .ok [⟨some "2025-01-01T00:00:00", none, none, none, "Planned"⟩] ∧
    loadCsv (df_to_csv_bytes (add_row make_empty_df "2025-01-01T00:00:00")) ≠
      .ok (add_row make_empty_df "2025-01-01T00:00:00") := by
  refine ⟨rfl, rfl, ?_⟩
  intro h
  have h2 : (Except.ok [(⟨some "2025-01-01T00:00:00", none, none, none, "Planned"⟩ : Row)] :
      Except String (List Row)) =
      .ok [⟨some "2025-01-01T00:00:00", some "", some "", some "", "Planned"⟩] := h
  simp at h2

/-- Claim C1 as amended: the round-trip law holds for every table built from
`create_empty` by `add_row`, `update_field`, `set_schedule` and
`remove_rows`, provided every text field is `Safe` for the CSV reader: not
empty (an empty field reloads as the `NA` marker), not one of the reader's
`na_values` tokens, and not a numeric-, boolean- or infinity-looking text
even after stripping surrounding whitespace (the reader's column-wise dtype
inference skips such padding and could restringify the value
differently). -/
theorem C1_roundtrip_amended (t : List Row) (hb : Built t) (hsafe : ∀ r ∈ t, SafeRow r) :
    loadCsv (df_to_csv_bytes t) = .ok t :=
  roundtrip_safe t (built_status hb) hsafe

/-- Witness for the amended round-trip law at a concrete safely-built
one-row table. -/
theorem C1_roundtrip_amended_witness :
    loadCsv (df_to_csv_bytes
      [⟨some "2025-03-04T05:06:07", some "buy milk", some "two litres",
        some "2025-03-05T09:00:00", "Planned"⟩]) =
      .ok [⟨some "2025-03-04T05:06:07", some "buy milk", some "two litres",
        some "2025-03-05T09:00:00", "Planned"⟩] :=
  C1_roundtrip_amended _
    (by
      have h0 : Built (add_row make_empty_df "2025-03-04T05:06:07") :=
        Built.add _ _ Built.empty
      have h1 : Built [⟨some "2025-03-04T05:06:07", some "buy milk", some "", some "",
          "Planned"⟩] :=
        Built.update _ 0 .title "buy milk" _ h0 rfl
      have h2 : Built [⟨some "2025-03-04T05:06:07", some "buy milk", some "two litres", some "",
          "Planned"⟩] :=
        Built.update _ 0 .detail "two litres" _ h1 rfl
      exact Built.update _ 0 .schedule_time "2025-03-05T09:00:00" _ h2 rfl)
    (by decide)
